import Mathlib

/-!
Verification development for the OpenStreetMap audit/normalize/shape pipeline
(`p3_openstreetmap.py`).  Python strings are modelled as `List Char`; fallible
code (Python exceptions) is modelled with `Option`.  All definitions are
executable translations of the source functions.
-/

set_option maxRecDepth 4000

/-- ASCII digit test, matching the regex class `[0-9]` used in `re.sub`. -/
def pyIsDigit (c : Char) : Bool := ('0' ≤ c && c ≤ '9')

/-- Lowercase test for the character repertoire appearing in this data set
(ASCII letters plus the German letters of the source's street names); models
Python `unicode.islower` on single characters. -/
def pyIsLower (c : Char) : Bool :=
  ('a' ≤ c && c ≤ 'z') || c = 'ß' || c = 'ä' || c = 'ö' || c = 'ü'

/-- Uppercasing of a single character (Python 2 `unicode.upper`; note that
`u"ß".upper()` is `u"ß"` in Python 2, so `'ß'` is a fixed point). -/
def pyToUpper (c : Char) : Char :=
  if 'a' ≤ c && c ≤ 'z' then Char.ofNat (c.toNat - 32)
  else if c = 'ä' then 'Ä' else if c = 'ö' then 'Ö' else if c = 'ü' then 'Ü'
  else c

/-- Lowercasing of a single character (Python 2 `unicode.lower`). -/
def pyToLower (c : Char) : Char :=
  if 'A' ≤ c && c ≤ 'Z' then Char.ofNat (c.toNat + 32)
  else if c = 'Ä' then 'ä' else if c = 'Ö' then 'ö' else if c = 'Ü' then 'ü'
  else c

/-- Split a string at the first occurrence of the pattern `pat`:
`some (before, after)` when `pat` occurs, `none` otherwise.  This models both
Python's `pat in s` (the `some` case) and `s.split(pat, 1)`. -/
def splitFirstOcc (pat : List Char) : List Char → Option (List Char × List Char)
  | [] => if pat.isEmpty then some ([], []) else none
  | c :: cs =>
    if pat.isPrefixOf (c :: cs) then some ([], List.drop pat.length (c :: cs))
    else
      match splitFirstOcc pat cs with
      | some (b, a) => some (c :: b, a)
      | none => none

/-- Substring test, modelling Python's `pat in s`. -/
def containsSub (pat : List Char) (s : List Char) : Bool :=
  (splitFirstOcc pat s).isSome

/-- Fuelled worker for `repAll`: replace every (left-to-right, non-overlapping)
occurrence of `k` by `v`.  The fuel is an upper bound on the number of
replacements; `repAll` always supplies enough. -/
def repAllAux (k v : List Char) : Nat → List Char → List Char
  | 0, s => s
  | f + 1, s =>
    match splitFirstOcc k s with
    | some (b, a) => b ++ v ++ repAllAux k v f a
    | none => s

/-- Replace every occurrence of `k` in `s` by `v`, left to right and without
overlap: Python's `s.replace(k, v)` (for non-empty `k`). -/
def repAll (k v s : List Char) : List Char := repAllAux k v s.length s

/-- The street-type allow-list `expected` from the source, byte for byte.  The
last two entries are written `u"Br\00fccke"` / `u"br\00fccke"` in the Python
source; `\00` is an octal escape for the NUL character, so they denote
`"Br\x00fccke"` and `"br\x00fccke"`, not `"Brücke"` / `"brücke"`. -/
def expected : List (List Char) :=
  ["Straße".data, "straße".data, "Allee".data, "allee".data,
   "Weg".data, "weg".data, "Platz".data, "platz".data,
   "Gasse".data, "gasse".data, "Promenade".data, "promenade".data,
   "Ufer".data, "ufer".data, "Br\x00fccke".data, "br\x00fccke".data]

/-- The counter computed by `audit_street_type`: how many expected street-type
tokens occur (as substrings) in the street name. -/
def audit_counter (street_name : List Char) : Nat :=
  List.countP (fun t => containsSub t street_name) expected

/-- Whether `audit_street_type` adds the street name to the anomalous set
(`counter == 0`). -/
def audit_adds (street_name : List Char) : Bool := audit_counter street_name == 0

/-- The set mutation of `audit_street_type`, with the set modelled as a list. -/
def audit_street_type (street_types : List (List Char)) (street_name : List Char) :
    List (List Char) :=
  if audit_adds street_name then street_name :: street_types else street_types

/-- The `mapping` dict from the source, as an association list in source order
(Python 2 dict iteration order is unspecified; order-independence is proved
below). -/
def mappingList : List (List Char × List Char) :=
  [("Str.".data, "Straße".data),
   ("Strasse".data, "Straße".data),
   ("Str".data, "Straße".data),
   ("str".data, "straße".data),
   ("str.".data, "straße".data),
   ("strasse".data, "straße".data)]

/-- The `for key in mapping.keys()` loop of `update_name`, parametrised by the
iteration order `ord` of the mapping's entries: whenever the current name ends
with a key, every occurrence of that key is replaced by its mapped value. -/
def updLoop (ord : List (List Char × List Char)) (name : List Char) : List Char :=
  ord.foldl (fun n kv => if kv.1.isSuffixOf n then repAll kv.1 kv.2 n else n) name

/-- `update_name(name, mapping)` run with iteration order `ord`; `none` models
the `IndexError` raised by `name[0]` when the post-loop name is empty.
`name.capitalize()` (Python 2) uppercases the first character and lowercases
every following character. -/
def update_name_ord (ord : List (List Char × List Char)) (name : List Char) :
    Option (List Char) :=
  match updLoop ord name with
  | [] => none
  | c :: cs =>
    some (if pyIsLower c then pyToUpper c :: cs.map pyToLower else c :: cs)

/-- `update_name(name, mapping)` with the source-order iteration. -/
def update_name (name : List Char) : Option (List Char) :=
  update_name_ord mappingList name

/-- The digit-stripping step of `update_phone_num`:
`re.sub('[^0-9]', '', num)`. -/
def pyDigits (s : List Char) : List Char := s.filter pyIsDigit

/-- Step 2 of `update_phone_num`: `if num.startswith('0049'): num = '+' +
num.lstrip('00')` (note `lstrip` strips a character set, so this strips every
leading `'0'`). -/
def step2 (num : List Char) : List Char :=
  if ("0049".data).isPrefixOf num then '+' :: num.dropWhile (fun c => c == '0')
  else num

/-- Steps 3-4 of `update_phone_num`: the `if not num.startswith('49')` /
`else` statement (a separate `if` statement following step 2, not an `elif`).
The `else` branch models `'+49 ' + num.lstrip('49')`, where `lstrip('49')`
strips every leading `'4'` or `'9'` character. -/
def steps34 (num : List Char) : List Char :=
  if !(("49".data).isPrefixOf num) then
    if ("0".data).isPrefixOf num then
      "+49 ".data ++ num.dropWhile (fun c => c == '0')
    else "+49 ".data ++ num
  else "+49 ".data ++ num.dropWhile (fun c => c == '4' || c == '9')

/-- Steps 1-4 of `update_phone_num` (everything before the city-code split). -/
def steps14 (s : List Char) : List Char := steps34 (step2 (pyDigits s))

/-- Step 5 of `update_phone_num`: split at the first `"30"`; when the part
before it has length at most 5, rebuild as `"+49 30 " + after`. -/
def step5 (num : List Char) : List Char :=
  match splitFirstOcc ("30".data) num with
  | some (b, a) => if b.length ≤ 5 then "+49 30 ".data ++ a else num
  | none => num

/-- `update_phone_num(num)` from the source. -/
def update_phone_num (s : List Char) : List Char := step5 (steps14 s)

/-- Border-freeness of a pattern: no non-empty proper prefix of `k` is also a
suffix of `k`.  All six abbreviation keys satisfy this, so their occurrences
in a string can never overlap. -/
def noBorder (k : List Char) : Prop :=
  ∀ i, i < k.length → 0 < i → k.take i ≠ k.drop (k.length - i)

/-- The first (and, as proved below, only possible) mapping entry whose key is
a suffix of `s`. -/
def firstMatch (s : List Char) : Option (List Char × List Char) :=
  mappingList.find? (fun kv => kv.1.isSuffixOf s)

/-- Order-independent description of the `update_name` loop result. -/
def canonicalRep (s : List Char) : List Char :=
  match firstMatch s with
  | some kv => repAll kv.1 kv.2 s
  | none => s

/-- The character class of `PROBLEMCHARS`:
`[=\+/&<>;'"\?%#$@\,\. \t\r\n]` (39 = apostrophe, 34 = double quote,
9 = tab, 13 = CR, 10 = LF). -/
def problemChars : List Char :=
  ['=', '+', '/', '&', '<', '>', ';', Char.ofNat 39, Char.ofNat 34, '?', '%',
   '#', '$', '@', ',', '.', ' ', Char.ofNat 9, Char.ofNat 13, Char.ofNat 10]

/-- `PROBLEMCHARS.search(k)` finds a match: some character of `k` lies in the
class. -/
def hasProblemChar (s : List Char) : Bool :=
  s.any (fun c => problemChars.contains c)

/-- A character matched by `([a-z]|_)`. -/
def isLowUnd (c : Char) : Bool := ('a' ≤ c && c ≤ 'z') || c = '_'

/-- Worker for `LOWER_COLON` matching, entered after at least one
lowercase-or-underscore character has been consumed: consume more such
characters; at the colon, require one further lowercase-or-underscore
character.  Since `([a-z]|_)` cannot match `':'`, the regex's colon can only
match the first colon of the string, so no other backtracking exists. -/
def lowerColonHead : List Char → Bool
  | [] => false
  | d :: _ => isLowUnd d

def lowerColonAux : List Char → Bool
  | [] => false
  | c :: cs =>
    if c = ':' then lowerColonHead cs
    else isLowUnd c && lowerColonAux cs

/-- `LOWER_COLON.search(k)` for the anchored pattern
`^([a-z]|_)+:([a-z]|_)+`. -/
def lowerColonSearch : List Char → Bool
  | [] => false
  | c :: cs => isLowUnd c && lowerColonAux cs

/-- A child annotation element (`tag`), carrying its `k` and `v` attributes. -/
structure XmlTag where
  k : List Char
  v : List Char
deriving DecidableEq

/-- The dict built for one annotation by `shape_element`: `type`/`key` stay
unset (`none`) when the raw key contains a problem character. -/
structure TagRec where
  id : Option (List Char)
  value : List Char
  type : Option (List Char)
  key : Option (List Char)
deriving DecidableEq

/-- One `way_nodes` record: owner id, referenced node id, zero-based
position. -/
structure NodeRefRec where
  id : Option (List Char)
  node_id : Option (List Char)
  position : Nat
deriving DecidableEq

/-- An input element: its tag name, XML attributes, child `tag` annotations in
document order and (for ways) the `ref` attributes of its child `nd`
elements in document order. -/
structure Element where
  tag : List Char
  attrs : List (List Char × List Char)
  tags : List XmlTag
  nds : List (Option (List Char))
deriving DecidableEq

/-- `element.get(a)`: the attribute's value, or `None` when absent. -/
def elemGet (e : Element) (a : List Char) : Option (List Char) :=
  (e.attrs.find? (fun p => p.1 == a)).map Prod.snd

/-- `NODE_FIELDS` from the source. -/
def NODE_FIELDS : List (List Char) :=
  ["id".data, "lat".data, "lon".data, "user".data, "uid".data,
   "version".data, "changeset".data, "timestamp".data]

/-- `WAY_FIELDS` from the source. -/
def WAY_FIELDS : List (List Char) :=
  ["id".data, "user".data, "uid".data, "version".data, "changeset".data,
   "timestamp".data]

/-- The value stored for one annotation: street names go through
`update_name` (which can raise, hence `Option`), phone numbers through
`update_phone_num`, anything else is passed through verbatim. -/
def tagValue (t : XmlTag) : Option (List Char) :=
  if t.k = "addr:street".data then update_name t.v
  else if t.k = "phone".data then some (update_phone_num t.v)
  else some t.v

/-- Processing of one annotation inside `shape_element`'s tag loop.  The
`none` in the inner match models the `IndexError` of `sp[1]` when the split
finds no colon; it is unreachable because a `LOWER_COLON` match guarantees a
colon. -/
def processTag (eid : Option (List Char)) (t : XmlTag) : Option TagRec :=
  (tagValue t).bind (fun v =>
    if hasProblemChar t.k then some ⟨eid, v, none, none⟩
    else if lowerColonSearch t.k then
      (splitFirstOcc (":".data) t.k).map (fun p => ⟨eid, v, some p.1, some p.2⟩)
    else some ⟨eid, v, some ("regular".data), some t.k⟩)

/-- The whole tag loop of `shape_element` (left to right; the first exception
aborts everything, modelled by `none`). -/
def processTags (eid : Option (List Char)) : List XmlTag → Option (List TagRec)
  | [] => some []
  | t :: ts =>
    match processTag eid t, processTags eid ts with
    | some r, some rs => some (r :: rs)
    | _, _ => none

/-- The `way_nodes` loop of `shape_element`: one record per child reference,
with `position` counting up from 0 in document order. -/
def wayNodes (e : Element) : List NodeRefRec :=
  e.nds.enum.map (fun p => ⟨elemGet e ("id".data), p.2, p.1⟩)

/-- The value returned by `shape_element` when it returns a dict. -/
inductive ShapeResult where
  | node (node_attribs : List (List Char × Option (List Char)))
      (node_tags : List TagRec)
  | way (way_attribs : List (List Char × Option (List Char)))
      (way_nodes : List NodeRefRec) (way_tags : List TagRec)
deriving DecidableEq

/-- The observable outcome of `shape_element`: an exception, the implicit
`None` return (element neither node nor way), or a dict. -/
inductive ShapeOutcome where
  | raised
  | noneReturn
  | result (r : ShapeResult)
deriving DecidableEq

/-- `shape_element(element)` from the source.  The tag loop runs first (so an
exception there fires for every element kind); then the node/way dispatch
builds the parent record from the declared field list. -/
def shape_element (e : Element) : ShapeOutcome :=
  match processTags (elemGet e ("id".data)) e.tags with
  | none => ShapeOutcome.raised
  | some tags =>
    if e.tag = "node".data then
      ShapeOutcome.result
        (ShapeResult.node (NODE_FIELDS.map (fun a => (a, elemGet e a))) tags)
    else if e.tag = "way".data then
      ShapeOutcome.result
        (ShapeResult.way (WAY_FIELDS.map (fun a => (a, elemGet e a)))
          (wayNodes e) tags)
    else ShapeOutcome.noneReturn

/-- The concrete element on which claim C10 fails: a node with a single
`addr:street` annotation whose value is the empty string. -/
def c10elem : Element :=
  Element.mk ("node".data) [] [XmlTag.mk ("addr:street".data) []] []

/-- The concrete way element used as witness for claim C10: one annotation
and two child references. -/
def c10welem : Element :=
  Element.mk ("way".data) [(("id".data), "7".data)]
    [XmlTag.mk ("name".data) ("x".data)]
    [some ("1".data), some ("2".data)]

example : update_phone_num ("030 1234567".data) = "+49 30 1234567".data := by decide

example : update_name ("Teststr.".data) = some ("Teststraße".data) := by decide

example : update_name ("lindenstr".data) = some ("Lindenstraße".data) := by decide

example : steps14 ("0049301234567".data) = "+49 +49301234567".data := by decide

example : audit_adds ("Schlossbrücke".data) = true := by decide

example : update_name ("zur WAAGE".data) = some ("Zur waage".data) := by decide

/-- Bridge between the boolean `isPrefixOf` and the `<+:` relation. -/
theorem isPrefixOf_true_iff (l1 l2 : List Char) : l1.isPrefixOf l2 = true ↔ l1 <+: l2 :=
  List.isPrefixOf_iff_prefix

/-- Bridge between the boolean `isSuffixOf` and the `<:+` relation. -/
theorem isSuffixOf_true_iff (l1 l2 : List Char) : l1.isSuffixOf l2 = true ↔ l1 <:+ l2 :=
  List.isSuffixOf_iff_suffix

/-- `splitFirstOcc` really splits: the input is `before ++ pat ++ after`. -/
theorem splitFirstOcc_eq (pat : List Char) :
    ∀ s b a : List Char, splitFirstOcc pat s = some (b, a) → s = b ++ pat ++ a := by
  intro s
  induction s with
  | nil =>
    intro b a h
    simp only [splitFirstOcc] at h
    split at h
    · simp only [Option.some.injEq, Prod.mk.injEq] at h
      obtain ⟨hb, ha⟩ := h
      subst hb; subst ha
      simp_all [List.isEmpty_iff]
    · cases h
  | cons c cs ih =>
    intro b a h
    simp only [splitFirstOcc] at h
    split at h
    next hp =>
      simp only [Option.some.injEq, Prod.mk.injEq] at h
      obtain ⟨hb, ha⟩ := h
      subst hb; subst ha
      obtain ⟨t, ht⟩ := (isPrefixOf_true_iff pat (c :: cs)).mp hp
      rw [← ht]
      simp [List.drop_left]
    next hp =>
      cases hsp : splitFirstOcc pat cs with
      | some ba =>
        obtain ⟨b', a'⟩ := ba
        rw [hsp] at h
        simp only [Option.some.injEq, Prod.mk.injEq] at h
        obtain ⟨hb, ha⟩ := h
        subst hb; subst ha
        have := ih b' a' hsp
        rw [this]
        simp
      | none => rw [hsp] at h; cases h

/-- When the pattern is a (non-empty) suffix of the string, `splitFirstOcc`
finds an occurrence. -/
theorem splitFirstOcc_isSome_of_suffix (pat : List Char) (hk : pat ≠ []) :
    ∀ s : List Char, pat <:+ s → (splitFirstOcc pat s).isSome := by
  intro s
  induction s with
  | nil => intro h; exact absurd (List.suffix_nil.mp h) hk
  | cons c cs ih =>
    intro h
    simp only [splitFirstOcc]
    split
    · simp
    next hp =>
      rcases List.suffix_cons_iff.mp h with heq | hsuf
      · exact absurd ((isPrefixOf_true_iff pat (c :: cs)).mpr (by rw [heq])) hp
      · have hrec := ih hsuf
        cases hsp : splitFirstOcc pat cs with
        | some ba => obtain ⟨b, a⟩ := ba; simp
        | none => rw [hsp] at hrec; cases hrec

/-- Replacing in the empty string yields the empty string. -/
theorem repAllAux_nil (k v : List Char) (hk : k ≠ []) : ∀ f, repAllAux k v f [] = [] := by
  intro f
  cases f with
  | zero => rfl
  | succ f =>
    have hke : k.isEmpty = false := by simpa [List.isEmpty_iff] using hk
    simp [repAllAux, splitFirstOcc, hke]

/-- Replacing with a non-empty replacement keeps a non-empty string non-empty. -/
theorem repAllAux_ne_nil (k v : List Char) (hv : v ≠ []) :
    ∀ f s, s ≠ [] → repAllAux k v f s ≠ [] := by
  intro f s hs
  cases f with
  | zero => simpa [repAllAux] using hs
  | succ f =>
    simp only [repAllAux]
    cases hsp : splitFirstOcc k s with
    | none => simpa using hs
    | some ba =>
      obtain ⟨b, a⟩ := ba
      simp [List.append_eq_nil, hv]

/-- If a border-free non-empty `k` is a suffix of `s`, then after replacing
every occurrence of `k` by `v` the result ends with `v`. -/
theorem repAllAux_suffix (k v : List Char) (hk : k ≠ []) (hb : noBorder k) :
    ∀ f s, s.length ≤ f → k <:+ s → v <:+ repAllAux k v f s := by
  intro f
  induction f with
  | zero =>
    intro s hlen hs
    have hnil : s = [] := List.length_eq_zero.mp (Nat.le_zero.mp hlen)
    subst hnil
    exact absurd (List.suffix_nil.mp hs) hk
  | succ f ih =>
    intro s hlen hs
    have hsome := splitFirstOcc_isSome_of_suffix k hk s hs
    cases hsp : splitFirstOcc k s with
    | none => rw [hsp] at hsome; cases hsome
    | some ba =>
      obtain ⟨b, a⟩ := ba
      have hdecomp : s = b ++ k ++ a := splitFirstOcc_eq k s b a hsp
      have hkpos : 0 < k.length := List.length_pos.mpr hk
      simp only [repAllAux, hsp]
      by_cases hae : a = []
      · subst hae
        rw [repAllAux_nil k v hk f, List.append_nil]
        exact List.suffix_append b v
      · have hapos : 0 < a.length := List.length_pos.mpr hae
        have hlens : s.length = b.length + (k.length + a.length) := by
          rw [hdecomp]; simp [List.length_append]
        by_cases hlen2 : k.length ≤ a.length
        · have hsa : a <:+ s := by rw [hdecomp]; exact List.suffix_append (b ++ k) a
          have hka : k <:+ a := List.suffix_of_suffix_length_le hs hsa hlen2
          have hal : a.length ≤ f := by omega
          have hrec := ih a hal hka
          have hstep : repAllAux k v f a <:+ b ++ v ++ repAllAux k v f a :=
            List.suffix_append (b ++ v) _
          exact hrec.trans hstep
        · exfalso
          push_neg at hlen2
          have h1 : k = s.drop (s.length - k.length) := List.suffix_iff_eq_drop.mp hs
          have e1 : s.length - k.length = b.length + a.length := by omega
          have e2 : s.drop (b.length + a.length) = k.drop a.length ++ a := by
            rw [hdecomp, List.append_assoc, List.drop_append a.length]
            exact List.drop_append_of_le_length (Nat.le_of_lt hlen2)
          have e3 : k = k.drop a.length ++ a := by
            conv_lhs => rw [h1, e1, e2]
          have hlend : (k.drop a.length).length = k.length - a.length :=
            List.length_drop a.length k
          have e4 : k.take (k.length - a.length) = k.drop a.length := by
            have h5 := congrArg (List.take ((k.drop a.length).length)) e3
            rw [List.take_left] at h5
            rw [hlend] at h5
            exact h5
          have e5 : k.length - (k.length - a.length) = a.length := by omega
          exact hb (k.length - a.length) (by omega) (by omega) (by rw [e5]; exact e4)

/-- Wrapper for `repAll`: the replacement is a suffix of the result. -/
theorem repAll_suffix (k v s : List Char) (hk : k ≠ []) (hb : noBorder k)
    (hs : k <:+ s) : v <:+ repAll k v s :=
  repAllAux_suffix k v hk hb s.length s le_rfl hs

/-- The head of `repAll k v (c :: cs)`: either the head character is kept, or
`k` matches at position 0 and the result starts with `v`. -/
theorem repAll_head (k v : List Char) (c : Char) (cs : List Char) :
    (∃ t, repAll k v (c :: cs) = c :: t) ∨
    (k.isPrefixOf (c :: cs) = true ∧ ∃ t, repAll k v (c :: cs) = v ++ t) := by
  simp only [repAll, List.length_cons, repAllAux, splitFirstOcc]
  by_cases hp : k.isPrefixOf (c :: cs)
  · right
    refine ⟨hp, ?_⟩
    simp only [hp, if_true]
    exact ⟨_, rfl⟩
  · left
    simp only [hp, if_false, Bool.false_eq_true]
    cases hsp : splitFirstOcc k cs with
    | some ba =>
      obtain ⟨b, a⟩ := ba
      exact ⟨_, rfl⟩
    | none => exact ⟨cs, rfl⟩

/-- Unfolding `updLoop` over a cons. -/
theorem updLoop_cons (kv : List Char × List Char) (t : List (List Char × List Char))
    (s : List Char) :
    updLoop (kv :: t) s = updLoop t (if kv.1.isSuffixOf s then repAll kv.1 kv.2 s else s) :=
  rfl

/-- Unfolding `updLoop` over an append. -/
theorem updLoop_append (x y : List (List Char × List Char)) (s : List Char) :
    updLoop (x ++ y) s = updLoop y (updLoop x s) :=
  List.foldl_append _ s x y

/-- If no entry's key is a suffix of `s`, the `update_name` loop is a no-op. -/
theorem updLoop_eq_self (ord : List (List Char × List Char)) (s : List Char)
    (h : ∀ kv ∈ ord, ¬ kv.1 <:+ s) : updLoop ord s = s := by
  induction ord with
  | nil => rfl
  | cons kv t ih =>
    rw [updLoop_cons, if_neg, ih]
    · intro kv2 h2
      exact h kv2 (List.mem_cons_of_mem kv h2)
    · intro hc
      exact h kv (List.mem_cons_self kv t) ((isSuffixOf_true_iff kv.1 s).mp hc)

/-- No abbreviation key of the mapping is a suffix of another entry's key
(distinct entries). -/
theorem mapping_key_unique : ∀ kv1 ∈ mappingList, ∀ kv2 ∈ mappingList,
    kv1.1.isSuffixOf kv2.1 → kv1 = kv2 := by decide

/-- Every mapping entry has a non-empty, border-free key and a non-empty value
equal to `"Straße"` or `"straße"`. -/
theorem mapping_entries_ok : ∀ kv ∈ mappingList, kv.1 ≠ [] ∧ kv.2 ≠ [] ∧
    (kv.2 = "Straße".data ∨ kv.2 = "straße".data) := by decide

/-- The keys of the mapping are border-free. -/
theorem mapping_noBorder : ∀ kv ∈ mappingList, noBorder kv.1 := by
  intro kv hkv
  have : ∀ kv2 ∈ mappingList, ∀ i, i < kv2.1.length → 0 < i →
      kv2.1.take i ≠ kv2.1.drop (kv2.1.length - i) := by decide
  exact this kv hkv

/-- No mapping key is a suffix of a mapping value, and no mapping value is a
suffix of a mapping key. -/
theorem mapping_key_value_no_suffix : ∀ kv ∈ mappingList, ∀ kv2 ∈ mappingList,
    ¬ kv.1.isSuffixOf kv2.2 ∧ ¬ kv2.2.isSuffixOf kv.1 := by decide

/-- The mapping has no duplicate entries. -/
theorem mappingList_nodup : mappingList.Nodup := by decide

/-- A mapping key and a mapping value are never suffixes of one and the same
string (so once a replacement has happened, no further key can fire). -/
theorem no_key_and_value_suffix (kv kvs : List Char × List Char)
    (h1 : kv ∈ mappingList) (h2 : kvs ∈ mappingList) (r : List Char)
    (hvr : kvs.2 <:+ r) (hkr : kv.1 <:+ r) : False := by
  rcases Nat.le_total kv.1.length kvs.2.length with hle | hle
  · have hsuf := List.suffix_of_suffix_length_le hkr hvr hle
    exact (mapping_key_value_no_suffix kv h1 kvs h2).1
      ((isSuffixOf_true_iff kv.1 kvs.2).mpr hsuf)
  · have hsuf := List.suffix_of_suffix_length_le hvr hkr hle
    exact (mapping_key_value_no_suffix kv h1 kvs h2).2
      ((isSuffixOf_true_iff kvs.2 kv.1).mpr hsuf)

/-- The `update_name` loop computes `canonicalRep` under EVERY iteration order
of the mapping's six entries. -/
theorem updLoop_perm_eq_canonical (ord : List (List Char × List Char))
    (hperm : List.Perm ord mappingList) (s : List Char) :
    updLoop ord s = canonicalRep s := by
  cases hfm : firstMatch s with
  | none =>
    have hnone := List.find?_eq_none.mp hfm
    rw [canonicalRep, hfm]
    apply updLoop_eq_self
    intro kv hkv hsuf
    exact hnone kv (hperm.mem_iff.mp hkv) ((isSuffixOf_true_iff kv.1 s).mpr hsuf)
  | some kvs =>
    have hfm2 : mappingList.find? (fun kv => kv.1.isSuffixOf s) = some kvs := hfm
    have hmem : kvs ∈ mappingList := List.mem_of_find?_eq_some hfm2
    have hsufB := List.find?_some hfm2
    simp only [] at hsufB
    have hsuf : kvs.1 <:+ s := (isSuffixOf_true_iff kvs.1 s).mp hsufB
    have huniq : ∀ kv ∈ mappingList, kv.1 <:+ s → kv = kvs := by
      intro kv hkv hkvsuf
      rcases Nat.le_total kv.1.length kvs.1.length with hle | hle
      · exact mapping_key_unique kv hkv kvs hmem
          ((isSuffixOf_true_iff kv.1 kvs.1).mpr
            (List.suffix_of_suffix_length_le hkvsuf hsuf hle))
      · exact (mapping_key_unique kvs hmem kv hkv
          ((isSuffixOf_true_iff kvs.1 kv.1).mpr
            (List.suffix_of_suffix_length_le hsuf hkvsuf hle))).symm
    have hmemord : kvs ∈ ord := hperm.mem_iff.mpr hmem
    obtain ⟨l1, l2, hdec⟩ := List.append_of_mem hmemord
    have hnodup : ord.Nodup := hperm.nodup_iff.mpr mappingList_nodup
    rw [hdec] at hnodup
    rw [List.nodup_append] at hnodup
    have hnotl1 : kvs ∉ l1 := fun hc => hnodup.2.2 hc (List.mem_cons_self kvs l2)
    have hmeml1 : ∀ kv ∈ l1, kv ∈ mappingList := by
      intro kv hkv
      exact hperm.mem_iff.mp (by rw [hdec]; exact List.mem_append_left _ hkv)
    have hmeml2 : ∀ kv ∈ l2, kv ∈ mappingList := by
      intro kv hkv
      refine hperm.mem_iff.mp ?_
      rw [hdec]
      exact List.mem_append_right _ (List.mem_cons_of_mem kvs hkv)
    rw [hdec, updLoop_append]
    rw [updLoop_eq_self l1 s (fun kv hkv hsufkv =>
      hnotl1 (by rw [← huniq kv (hmeml1 kv hkv) hsufkv]; exact hkv))]
    rw [updLoop_cons, if_pos ((isSuffixOf_true_iff kvs.1 s).mpr hsuf)]
    have hvr : kvs.2 <:+ repAll kvs.1 kvs.2 s :=
      repAll_suffix kvs.1 kvs.2 s (mapping_entries_ok kvs hmem).1
        (mapping_noBorder kvs hmem) hsuf
    rw [updLoop_eq_self l2 _ (fun kv hkv hsufkv =>
      no_key_and_value_suffix kv kvs (hmeml2 kv hkv) hmem _ hvr hsufkv)]
    rw [canonicalRep, hfm]

/-- The `update_name` loop never turns a non-empty name into an empty one
(every replacement value is non-empty). -/
theorem updLoop_ne_nil (ord : List (List Char × List Char))
    (hv : ∀ kv ∈ ord, kv.2 ≠ []) :
    ∀ s : List Char, s ≠ [] → updLoop ord s ≠ [] := by
  induction ord with
  | nil => intro s hs; exact hs
  | cons kv t ih =>
    intro s hs
    rw [updLoop_cons]
    apply ih (fun kv2 h2 => hv kv2 (List.mem_cons_of_mem kv h2))
    by_cases hsuf : kv.1.isSuffixOf s = true
    · rw [if_pos hsuf]
      exact repAllAux_ne_nil kv.1 kv.2 (hv kv (List.mem_cons_self kv t)) s.length s hs
    · rw [if_neg hsuf]; exact hs

/-- Claim C1, counterexample.  The claim asserts that for a digit string
starting `"0049"` the pre-step-5 value is `"+"` plus the zero-stripped digits
(steps 3-4 skipped, single country prefix); on input `"0049301234567"` the
code instead produces the doubly prefixed `"+49 +49301234567"`, because the
step-3 `if` is a separate statement, not an `else` of step 2. -/
theorem c1_counterexample :
    steps14 ("0049301234567".data) = "+49 +49301234567".data ∧
    update_phone_num ("0049301234567".data) = "+49 +49301234567".data ∧
    "+49 +49301234567".data ≠ "+49301234567".data := by decide

/-- Claim C1, amended: for every input whose digit-stripped form starts with
`"0049"`, step 2 rewrites it to `"+"` plus the digits with all leading zeros
stripped, and then step 3 (a separate `if`, whose test sees a string starting
with `'+'`) prepends `"+49 "` once more, so the pre-step-5 value is
`"+49 +"` followed by the zero-stripped digits. -/
theorem c1_amended_doubly_prefixed (s : List Char)
    (h : ("0049".data).isPrefixOf (pyDigits s) = true) :
    steps14 s = "+49 +".data ++ (pyDigits s).dropWhile (fun c => c == '0') := by
  have h2 : step2 (pyDigits s) = '+' :: (pyDigits s).dropWhile (fun c => c == '0') := by
    rw [step2, if_pos h]
  rw [steps14, h2, steps34]
  simp only [show ∀ x : List Char, ("49".data).isPrefixOf ('+' :: x) = false from fun x => rfl,
    show ∀ x : List Char, ("0".data).isPrefixOf ('+' :: x) = false from fun x => rfl,
    Bool.not_false, if_true, if_false]
  rfl

/-- Claim C1, witness for the amended theorem at the concrete input
`"0049301234567"`. -/
theorem c1_witness :
    steps14 ("0049301234567".data) =
      "+49 +".data ++ (pyDigits ("0049301234567".data)).dropWhile (fun c => c == '0') :=
  c1_amended_doubly_prefixed ("0049301234567".data) (by decide)

/-- Claim C2, counterexample.  On `"zur WAAGE"` (no abbreviation suffix,
lowercase first character) the code returns `"Zur waage"`: Python's
`capitalize()` lowercases every character after the first, so the rest of the
casing is NOT left untouched as the claim states. -/
theorem c2_counterexample :
    update_name ("zur WAAGE".data) = some ("Zur waage".data) ∧
    ("Zur waage".data : List Char) ≠ "Zur WAAGE".data := by decide

/-- Claim C2, amended: if the first character of the post-mapping string is
lowercase, the result is Python's `capitalize()` of it — the first character
uppercased and EVERY following character lowercased. -/
theorem c2_amended_capitalize (s : List Char) (c : Char) (cs : List Char)
    (h : updLoop mappingList s = c :: cs) (hl : pyIsLower c = true) :
    update_name s = some (pyToUpper c :: cs.map pyToLower) := by
  unfold update_name update_name_ord
  rw [h]
  simp only [if_pos hl]

/-- Claim C2, witness for the amended theorem at the concrete input
`"zur WAAGE"`. -/
theorem c2_witness :
    update_name ("zur WAAGE".data) =
      some (pyToUpper 'z' :: ("ur WAAGE".data).map pyToLower) :=
  c2_amended_capitalize ("zur WAAGE".data) 'z' ("ur WAAGE".data) (by decide) (by decide)

/-- Claim C3, counterexample: on the empty string `update_name` raises
(`name[0]` is an `IndexError`, modelled by `none`), so the function does have
an error condition. -/
theorem c3_counterexample : update_name [] = none := by decide

/-- Claim C3, amended: `update_name` returns a result (never raises) on every
NON-empty input string, including strings matching no abbreviation key. -/
theorem c3_amended_total_on_nonempty (s : List Char) (hs : s ≠ []) :
    (update_name s).isSome = true := by
  have h := updLoop_ne_nil mappingList (by decide) s hs
  unfold update_name update_name_ord
  cases hc : updLoop mappingList s with
  | nil => exact absurd hc h
  | cons c cs => rfl

/-- Claim C3, witness for the amended theorem at a concrete non-empty input. -/
theorem c3_witness : (update_name ("Am Ostbahnhof".data)).isSome = true :=
  c3_amended_total_on_nonempty ("Am Ostbahnhof".data) (by decide)

/-- Claim C4: the code is buggy.  The source writes the last two allow-list
entries as `u"Br\00fccke"` / `u"br\00fccke"`, where `\00` is an octal escape
for NUL, so `"Brücke"`/`"brücke"` are NOT in the list (contradicting the
source's own comment that the entries encode `"ü"`).  Hence
`"Schlossbrücke"`, which contains `"brücke"`, matches no token and IS added
to the anomalous street-names set. -/
theorem c4_code_bug_eval :
    audit_adds ("Schlossbrücke".data) = true ∧
    containsSub ("brücke".data) ("Schlossbrücke".data) = true ∧
    ("brücke".data ∉ expected) ∧ ("Brücke".data ∉ expected) ∧
    audit_street_type [] ("Schlossbrücke".data) = [("Schlossbrücke".data)] := by decide

/-- Claim C5, counterexample (negation of the claim): there is NO input and
pair of iteration orders of the six-entry mapping under which `update_name`
returns different strings — the claimed order dependence does not exist. -/
theorem c5_counterexample :
    ¬ ∃ (s : List Char) (ord1 ord2 : List (List Char × List Char)),
      List.Perm ord1 mappingList ∧ List.Perm ord2 mappingList ∧
      update_name_ord ord1 s ≠ update_name_ord ord2 s := by
  rintro ⟨s, ord1, ord2, h1, h2, hne⟩
  apply hne
  unfold update_name_ord
  rw [updLoop_perm_eq_canonical ord1 h1 s, updLoop_perm_eq_canonical ord2 h2 s]

/-- Claim C5, amended: no input matches more than one abbreviation key as a
suffix (no key is a suffix of another), and the result of `update_name` is
identical under every iteration order of the mapping's entries. -/
theorem c5_amended_order_independent (s : List Char)
    (ord1 ord2 : List (List Char × List Char))
    (h1 : List.Perm ord1 mappingList) (h2 : List.Perm ord2 mappingList) :
    update_name_ord ord1 s = update_name_ord ord2 s := by
  unfold update_name_ord
  rw [updLoop_perm_eq_canonical ord1 h1 s, updLoop_perm_eq_canonical ord2 h2 s]

/-- Claim C5, witness: source order versus reversed order on a concrete
input. -/
theorem c5_witness :
    update_name_ord mappingList ("Teststr.".data) =
      update_name_ord mappingList.reverse ("Teststr.".data) :=
  c5_amended_order_independent ("Teststr.".data) mappingList mappingList.reverse
    (List.Perm.refl mappingList) (List.reverse_perm mappingList)

/-- Claim C6 (confirmed): step 5 of `update_phone_num` splits the step-1-4
string at the first `"30"`; when the part before it has at most 5 characters
the result is exactly `"+49 30 "` plus the part after (and hence starts with
`"+49 30 "`), otherwise — and also when `"30"` does not occur — the step-1-4
string is returned unchanged. -/
theorem c6_step5_split (s : List Char) :
    (∀ b a : List Char, splitFirstOcc ("30".data) (steps14 s) = some (b, a) →
       (b.length ≤ 5 → update_phone_num s = "+49 30 ".data ++ a ∧
          "+49 30 ".data <+: update_phone_num s) ∧
       (5 < b.length → update_phone_num s = steps14 s)) ∧
    (splitFirstOcc ("30".data) (steps14 s) = none → update_phone_num s = steps14 s) := by
  constructor
  · intro b a h
    constructor
    · intro hb
      have heq : update_phone_num s = "+49 30 ".data ++ a := by
        rw [update_phone_num]
        unfold step5
        rw [h]
        simp only [if_pos hb]
      exact ⟨heq, by rw [heq]; exact List.prefix_append _ a⟩
    · intro hb
      rw [update_phone_num]
      unfold step5
      rw [h]
      simp only [if_neg (by omega : ¬ b.length ≤ 5)]
  · intro h
    rw [update_phone_num]
    unfold step5
    rw [h]

/-- Claim C6, witness at the spec's own scenario `"030 1234567"` (the part
before the first `"30"` of the step-1-4 string is `"+49 "`, length 4). -/
theorem c6_witness :
    update_phone_num ("030 1234567".data) = "+49 30 ".data ++ "1234567".data ∧
    "+49 30 ".data <+: update_phone_num ("030 1234567".data) :=
  ((c6_step5_split ("030 1234567".data)).1 ("+49 ".data) ("1234567".data)
    (by decide)).1 (by decide)

/-- Claim C7 (confirmed): for every input whose digit-stripped form starts
with `"49"` (and hence not with `"0049"`), steps 1-4 produce `"+49 "`
followed by the digits with ALL leading `'4'`-or-`'9'` characters stripped —
a character-class strip, not removal of the two-character prefix. -/
theorem c7_branch4_strip (s : List Char)
    (h49 : ("49".data).isPrefixOf (pyDigits s) = true)
    (h0049 : ("0049".data).isPrefixOf (pyDigits s) = false) :
    steps14 s = "+49 ".data ++ (pyDigits s).dropWhile (fun c => c == '4' || c == '9') := by
  have h2 : step2 (pyDigits s) = pyDigits s := by
    rw [step2, if_neg]
    simp [h0049]
  rw [steps14, h2, steps34, h49]
  simp

/-- Claim C7, witness at digits `"4949301234"`: all four leading `4`/`9`
characters are stripped. -/
theorem c7_witness :
    steps14 ("4949301234".data) = "+49 301234".data :=
  (c7_branch4_strip ("4949301234".data) (by decide) (by decide)).trans (by decide)

/-- Mapping entries whose key does not start with a lowercase character map to
the capitalised value `"Straße"`. -/
theorem mapping_upper_key_value : ∀ kv ∈ mappingList,
    pyIsLower (kv.1.headD 'a') = false → kv.2 = "Straße".data := by decide

/-- Claim C8, counterexample.  `"zum Platz aSTr"` contains the expected token
`"Platz"` with correct capitalisation, yet `update_name` is not idempotent on
it: the capitalisation step lowercases the tail `"aSTr"` to `"astr"`, which
creates a new `"str"` suffix, so the second application fires a replacement. -/
theorem c8_counterexample :
    (∃ t ∈ expected, containsSub t ("zum Platz aSTr".data) = true) ∧
    update_name ("zum Platz aSTr".data) = some ("Zum platz astr".data) ∧
    update_name ("Zum platz astr".data) = some ("Zum platz astraße".data) ∧
    ("Zum platz astraße".data : List Char) ≠ "Zum platz astr".data := by decide

/-- Claim C8, amended: `update_name` is idempotent on every value that
contains an expected street-type token and whose FIRST character is not
lowercase (so the capitalisation step, which lowercases the tail and can
create a fresh abbreviation suffix, does not fire). -/
theorem c8_amended_idempotent (x : List Char) (c : Char) (cs : List Char)
    (hx : x = c :: cs) (hc : pyIsLower c = false)
    (_ht : ∃ t ∈ expected, containsSub t x = true) :
    ∃ y, update_name x = some y ∧ update_name y = some y := by
  subst hx
  have hM := updLoop_perm_eq_canonical mappingList (List.Perm.refl mappingList) (c :: cs)
  cases hfm : firstMatch (c :: cs) with
  | none =>
    have hy : updLoop mappingList (c :: cs) = c :: cs := by
      rw [hM, canonicalRep, hfm]
    have h1 : update_name (c :: cs) = some (c :: cs) := by
      unfold update_name update_name_ord
      rw [hy]
      simp [hc]
    exact ⟨c :: cs, h1, h1⟩
  | some kvs =>
    have hfm2 : mappingList.find? (fun kv => kv.1.isSuffixOf (c :: cs)) = some kvs := hfm
    have hmem : kvs ∈ mappingList := List.mem_of_find?_eq_some hfm2
    have hsufB := List.find?_some hfm2
    simp only [] at hsufB
    have hsuf : kvs.1 <:+ c :: cs := (isSuffixOf_true_iff kvs.1 (c :: cs)).mp hsufB
    have hok := mapping_entries_ok kvs hmem
    have hnb := mapping_noBorder kvs hmem
    have hy0 : updLoop mappingList (c :: cs) = repAll kvs.1 kvs.2 (c :: cs) := by
      rw [hM, canonicalRep, hfm]
    have hvy : kvs.2 <:+ repAll kvs.1 kvs.2 (c :: cs) :=
      repAll_suffix kvs.1 kvs.2 (c :: cs) hok.1 hnb hsuf
    have hhead : ∃ c0 t0, repAll kvs.1 kvs.2 (c :: cs) = c0 :: t0 ∧ pyIsLower c0 = false := by
      rcases repAll_head kvs.1 kvs.2 c cs with ⟨t, htt⟩ | ⟨hpre, t, htt⟩
      · exact ⟨c, t, htt, hc⟩
      · cases hk1 : kvs.1 with
        | nil => exact absurd hk1 hok.1
        | cons k0 kr =>
          rw [hk1] at hpre
          have hk0 : k0 = c := by
            have := (isPrefixOf_true_iff (k0 :: kr) (c :: cs)).mp hpre
            obtain ⟨u, hu⟩ := this
            exact (List.cons.injEq k0 (kr ++ u) c cs ▸ hu).1
          have hval : kvs.2 = "Straße".data := by
            apply mapping_upper_key_value kvs hmem
            rw [hk1, hk0]
            exact hc
          refine ⟨'S', "traße".data ++ t, ?_, by decide⟩
          rw [hk1] at htt
          rw [htt, hval]
          rfl
    obtain ⟨c0, t0, hy0e, hc0⟩ := hhead
    have h1 : update_name (c :: cs) = some (c0 :: t0) := by
      unfold update_name update_name_ord
      rw [hy0, hy0e]
      simp [hc0]
    have hnokey : ∀ kv ∈ mappingList, ¬ kv.1 <:+ c0 :: t0 := by
      intro kv hkv hs2
      rw [← hy0e] at hs2
      exact no_key_and_value_suffix kv kvs hkv hmem _ hvy hs2
    have hfm0 : firstMatch (c0 :: t0) = none := by
      unfold firstMatch
      exact List.find?_eq_none.mpr
        (fun kv hkv hC => hnokey kv hkv ((isSuffixOf_true_iff kv.1 (c0 :: t0)).mp hC))
    have hyy : updLoop mappingList (c0 :: t0) = c0 :: t0 := by
      rw [updLoop_perm_eq_canonical mappingList (List.Perm.refl mappingList) (c0 :: t0),
        canonicalRep, hfm0]
    have h2 : update_name (c0 :: t0) = some (c0 :: t0) := by
      unfold update_name update_name_ord
      rw [hyy]
      simp [hc0]
    exact ⟨c0 :: t0, h1, h2⟩

/-- Claim C8, witness: `"Hauptstraße"` contains the token `"straße"`, starts
with an uppercase character, and `update_name` is idempotent on it. -/
theorem c8_witness :
    ∃ y, update_name ("Hauptstraße".data) = some y ∧ update_name y = some y :=
  c8_amended_idempotent ("Hauptstraße".data) 'H' ("auptstraße".data)
    (by decide) (by decide) (by decide)

/-- The single-colon pattern is a prefix of any string starting with a
colon. -/
theorem colon_isPrefixOf (cs : List Char) :
    ((":".data).isPrefixOf (':' :: cs)) = true := by
  simp [List.isPrefixOf]

/-- The single-colon pattern is not a prefix of a string starting with
another character. -/
theorem colon_not_isPrefixOf (c : Char) (cs : List Char) (hcc : c ≠ ':') :
    ((":".data).isPrefixOf (c :: cs)) = false := by
  rw [Bool.eq_false_iff]
  intro hC
  obtain ⟨u, hu⟩ := (isPrefixOf_true_iff (":".data) (c :: cs)).mp hC
  have hu2 : ':' :: u = c :: cs := hu
  injection hu2 with h1 h2
  exact hcc h1.symm

/-- After at least one `[a-z_]` character, a successful `lowerColonAux` match
guarantees a colon occurrence. -/
theorem lowerColonAux_isSome (s : List Char) (h : lowerColonAux s = true) :
    (splitFirstOcc (":".data) s).isSome := by
  induction s with
  | nil => cases h
  | cons c cs ih =>
    by_cases hcc : c = ':'
    · subst hcc
      simp [splitFirstOcc, colon_isPrefixOf cs]
    · simp only [lowerColonAux, if_neg hcc, Bool.and_eq_true] at h
      have hrec := ih h.2
      simp only [splitFirstOcc, colon_not_isPrefixOf c cs hcc]
      cases hsp : splitFirstOcc (":".data) cs with
      | some ba => obtain ⟨b, a⟩ := ba; simp
      | none => rw [hsp] at hrec; cases hrec

/-- A `LOWER_COLON` match guarantees a colon occurrence. -/
theorem lowerColonSearch_isSome (s : List Char) (h : lowerColonSearch s = true) :
    (splitFirstOcc (":".data) s).isSome := by
  cases s with
  | nil => cases h
  | cons c cs =>
    simp only [lowerColonSearch, Bool.and_eq_true] at h
    have hcc : c ≠ ':' := by
      intro hcc
      subst hcc
      exact absurd h.1 (by decide)
    have hrec := lowerColonAux_isSome cs h.2
    simp only [splitFirstOcc, colon_not_isPrefixOf c cs hcc]
    cases hsp : splitFirstOcc (":".data) cs with
    | some ba => obtain ⟨b, a⟩ := ba; simp
    | none => rw [hsp] at hrec; cases hrec

/-- A `LOWER_COLON` match guarantees the raw key contains a colon. -/
theorem colon_mem_of_search (s : List Char) (h : lowerColonSearch s = true) :
    ':' ∈ s := by
  have hiso := lowerColonSearch_isSome s h
  cases hsp : splitFirstOcc (":".data) s with
  | none => rw [hsp] at hiso; cases hiso
  | some ba =>
    obtain ⟨b, a⟩ := ba
    rw [splitFirstOcc_eq (":".data) s b a hsp]
    simp

/-- Claim C9 (confirmed): for an annotation whose raw key has no problem
character, a `LOWER_COLON` match makes `shape_element` derive `type`/`key` by
splitting at the FIRST colon, and the round trip `type ++ ":" ++ key`
restores the raw key; for a colon-free conforming key, `type` is `"regular"`
and `key` is the raw key. -/
theorem c9_key_split (eid : Option (List Char)) (t : XmlTag) (r : TagRec)
    (hres : processTag eid t = some r) (hpc : hasProblemChar t.k = false) :
    (lowerColonSearch t.k = true →
       ∃ ty ke, r.type = some ty ∧ r.key = some ke ∧ ty ++ ':' :: ke = t.k) ∧
    (':' ∉ t.k → r.type = some ("regular".data) ∧ r.key = some t.k) := by
  constructor
  · intro hlc
    unfold processTag at hres
    cases hv : tagValue t with
    | none => rw [hv] at hres; cases hres
    | some v =>
      rw [hv, Option.some_bind] at hres
      rw [if_neg (by simp [hpc]), if_pos hlc] at hres
      have hiso := lowerColonSearch_isSome t.k hlc
      cases hsp : splitFirstOcc (":".data) t.k with
      | none => rw [hsp] at hiso; cases hiso
      | some ba =>
        obtain ⟨b, a⟩ := ba
        rw [hsp, Option.map_some'] at hres
        injection hres with hr
        subst hr
        refine ⟨b, a, rfl, rfl, ?_⟩
        rw [splitFirstOcc_eq (":".data) t.k b a hsp]
        simp
  · intro hnc
    have hlcf : lowerColonSearch t.k = false := by
      rw [Bool.eq_false_iff]
      intro hC
      exact hnc (colon_mem_of_search t.k hC)
    unfold processTag at hres
    cases hv : tagValue t with
    | none => rw [hv] at hres; cases hres
    | some v =>
      rw [hv, Option.some_bind] at hres
      rw [if_neg (by simp [hpc]), if_neg (by simp [hlcf])] at hres
      injection hres with hr
      subst hr
      exact ⟨rfl, rfl⟩

/-- Claim C9, witness at the spec's scenario key `"addr:postcode"`. -/
theorem c9_witness :
    ∃ ty ke,
      (TagRec.mk none ("3".data) (some ("addr".data)) (some ("postcode".data))).type
          = some ty ∧
      (TagRec.mk none ("3".data) (some ("addr".data)) (some ("postcode".data))).key
          = some ke ∧
      ty ++ ':' :: ke = (XmlTag.mk ("addr:postcode".data) ("3".data)).k :=
  (c9_key_split none (XmlTag.mk ("addr:postcode".data) ("3".data))
    (TagRec.mk none ("3".data) (some ("addr".data)) (some ("postcode".data)))
    (by decide) (by decide)).1 (by decide)

/-- When the tag loop completes, it emits exactly one record per child
annotation. -/
theorem processTags_length (eid : Option (List Char)) :
    ∀ ts rs, processTags eid ts = some rs → rs.length = ts.length := by
  intro ts
  induction ts with
  | nil =>
    intro rs h
    unfold processTags at h
    injection h with h
    subst h
    rfl
  | cons t ts ih =>
    intro rs h
    unfold processTags at h
    cases h1 : processTag eid t with
    | none => rw [h1] at h; cases h
    | some r =>
      rw [h1] at h
      cases h2 : processTags eid ts with
      | none => rw [h2] at h; cases h
      | some rs2 =>
        rw [h2] at h
        injection h with h
        subst h
        simp [List.length_cons, ih rs2 h2]

/-- One `way_nodes` record per child reference. -/
theorem wayNodes_length (e : Element) : (wayNodes e).length = e.nds.length := by
  unfold wayNodes
  rw [List.length_map, List.enum_length]

/-- The positions of the `way_nodes` records are `0..N-1` in document
order. -/
theorem wayNodes_positions (e : Element) :
    (wayNodes e).map (fun r => r.position) = List.range e.nds.length := by
  unfold wayNodes
  rw [List.map_map]
  have hcomp : ((fun r : NodeRefRec => r.position) ∘
      (fun p : Nat × Option (List Char) =>
        NodeRefRec.mk (elemGet e ("id".data)) p.2 p.1)) =
      (Prod.fst : Nat × Option (List Char) → Nat) := by
    funext p
    rfl
  rw [hcomp, List.enum_map_fst]

/-- Claim C10, counterexample: on `c10elem` (a node with one child
annotation) `shape_element` raises (`update_name` hits `name[0]` on the empty
street value), so no record set is produced at all — the emitted record count
(none) cannot equal the child annotation count (1). -/
theorem c10_counterexample :
    c10elem.tag = "node".data ∧ c10elem.tags.length = 1 ∧
    shape_element c10elem = ShapeOutcome.raised ∧
    ¬ ∃ na tr, shape_element c10elem = ShapeOutcome.result (ShapeResult.node na tr) ∧
        tr.length = c10elem.tags.length := by
  refine ⟨rfl, rfl, by decide, ?_⟩
  rintro ⟨na, tr, hres, hlen⟩
  have h : shape_element c10elem = ShapeOutcome.raised := by decide
  rw [h] at hres
  cases hres

/-- Claim C10, amended: for every node or way element on which
`shape_element` completes without raising, the number of emitted annotation
records equals the number of child annotations, and for every way the
`way_nodes` records are in bijection with the child references, with
positions `0..N-1` in document order. -/
theorem c10_amended_counts (e : Element) :
    (∀ na tr, shape_element e = ShapeOutcome.result (ShapeResult.node na tr) →
       tr.length = e.tags.length) ∧
    (∀ wa wn wt, shape_element e = ShapeOutcome.result (ShapeResult.way wa wn wt) →
       wt.length = e.tags.length ∧ wn.length = e.nds.length ∧
       wn.map (fun r => r.position) = List.range e.nds.length) := by
  constructor
  · intro na tr h
    unfold shape_element at h
    cases hp : processTags (elemGet e ("id".data)) e.tags with
    | none => rw [hp] at h; cases h
    | some tags =>
      simp only [hp] at h
      by_cases hn : e.tag = "node".data
      · rw [if_pos hn] at h
        injection h with h
        injection h with h1 h2
        subst h2
        exact processTags_length _ e.tags tags hp
      · rw [if_neg hn] at h
        by_cases hw : e.tag = "way".data
        · rw [if_pos hw] at h
          injection h with h
          cases h
        · rw [if_neg hw] at h
          cases h
  · intro wa wn wt h
    unfold shape_element at h
    cases hp : processTags (elemGet e ("id".data)) e.tags with
    | none => rw [hp] at h; cases h
    | some tags =>
      simp only [hp] at h
      by_cases hn : e.tag = "node".data
      · rw [if_pos hn] at h
        injection h with h
        cases h
      · rw [if_neg hn] at h
        by_cases hw : e.tag = "way".data
        · rw [if_pos hw] at h
          injection h with h
          injection h with h1 h2 h3
          subst h2
          subst h3
          exact ⟨processTags_length _ e.tags tags hp, wayNodes_length e, wayNodes_positions e⟩
        · rw [if_neg hw] at h
          cases h

/-- Claim C10, witness: on `c10welem` the annotation-record count, the
reference-record count and the positions are as the amended claim states. -/
theorem c10_witness :
    ([TagRec.mk (some ("7".data)) ("x".data) (some ("regular".data))
        (some ("name".data))].length = c10welem.tags.length) ∧
    ((wayNodes c10welem).length = c10welem.nds.length) ∧
    (wayNodes c10welem).map (fun r => r.position) = List.range c10welem.nds.length :=
  (c10_amended_counts c10welem).2
    (WAY_FIELDS.map (fun a => (a, elemGet c10welem a)))
    (wayNodes c10welem)
    [TagRec.mk (some ("7".data)) ("x".data) (some ("regular".data)) (some ("name".data))]
    (by decide)
